import Mathlib

/-
Verification of the instance-lifecycle and correlation layer of the
mvp-onlyoffice repository against its natural-language specification.

The TypeScript sources are shallowly embedded as Lean definitions:

* src/onlyoffice-comp/lib/eventbus.ts            -> the saveEventBus model
  (listeners array, on / off / emit with JavaScript forEach semantics,
  where an exception thrown by a callback aborts the iteration).
* the EditorManager class (editor-manager source) -> ManagerState with
  create / destroy / get / exists / setReadOnly / getReadOnly, the Proxy
  facade handlers, and the export flow over the save event bus.
* the OnlyOfficeServiceClient class              -> ClientState with the
  window message handler, sendMessage, the request timeout callback and
  destroyClient, each returning the successor state together with a list
  of observable effects (promise settlements, timers, postMessage calls,
  listener invocations).
* the useTabCache hook of src/app/multi/tabs/page.tsx -> an access-ordered
  association list with addToCache / getFromCache / removeFromCache and
  the LRU eviction loop.

Callbacks and engine objects are opaque in the source, so they are
modelled by identities (Nat / String) plus the behavioural flags the code
branches on (whether a call throws).  Timestamps coming from Date.now()
are Nat.  Exceptions are modelled by Except-style results or explicit
completion flags; effects a caller can observe are collected in traces.
-/

namespace OnlyOffice

/-! ## Save event bus (src/onlyoffice-comp/lib/eventbus.ts)

The bus stores callbacks in a plain array.  A callback is opaque; we
model it by its identity together with the one behaviour emit depends
on, namely whether invoking it throws. -/

/-- A callback registered on the save event bus: an identity (the closure
identity that JavaScript compares with !==) and whether invoking the
callback throws. -/
structure Callback where
  id : Nat
  throws : Bool
deriving DecidableEq, Repr

/-- Embedding of saveEventBus.on: listeners.push(callback). -/
def busOn (l : List Callback) (c : Callback) : List Callback :=
  l ++ [c]

/-- Embedding of saveEventBus.off:
listeners = listeners.filter(listener => listener !== callback). -/
def busOff (l : List Callback) (c : Callback) : List Callback :=
  l.filter (fun x => x ≠ c)

/-- Embedding of saveEventBus.emit:
listeners.forEach(listener => listener(data)).  forEach runs the
callbacks in order with no try/catch around the invocation, so a
callback that throws aborts the loop and the exception escapes emit.
The result is the list of callback identities that were actually
invoked (the throwing callback included, since it did run) together
with a flag telling whether the iteration completed normally. -/
def busEmit : List Callback → List Nat × Bool
  | [] => ([], true)
  | c :: rest =>
      if c.throws then ([c.id], false)
      else
        let r := busEmit rest
        (c.id :: r.1, r.2)

/-- When no registered callback throws, emit invokes every registered
callback, in registration order, and the iteration completes. -/
theorem busEmit_no_throw (l : List Callback) (h : ∀ c ∈ l, c.throws = false) :
    busEmit l = (l.map Callback.id, true) := by
  induction l with
  | nil => rfl
  | cons c rest ih =>
      have hc : c.throws = false := h c (List.mem_cons_self _ _)
      have hrest : ∀ d ∈ rest, d.throws = false := fun d hd => h d (List.mem_cons_of_mem _ hd)
      simp [busEmit, hc, ih hrest]

/-- When the first throwing callback is preceded only by non-throwing
ones, emit invokes exactly the prefix and the thrower, then aborts. -/
theorem busEmit_throw (pre : List Callback) (c : Callback) (post : List Callback)
    (hc : c.throws = true) (hpre : ∀ d ∈ pre, d.throws = false) :
    busEmit (pre ++ c :: post) = (pre.map Callback.id ++ [c.id], false) := by
  induction pre with
  | nil => simp [busEmit, hc]
  | cons d rest ih =>
      have hd : d.throws = false := hpre d (List.mem_cons_self _ _)
      have hrest : ∀ e ∈ rest, e.throws = false := fun e he => hpre e (List.mem_cons_of_mem _ he)
      simp [busEmit, hd, ih hrest]

/-- C6 (counterexample).  The claim states that a callback that throws
does not prevent the remaining registered callbacks from running.  On the
concrete bus holding callback 0 (which throws) followed by callback 1,
emit invokes only callback 0: callback 1 is registered at the time of the
emission yet is never invoked, because forEach has no try/catch around
the invocation. -/
theorem emit_isolation_counterexample :
    (⟨1, false⟩ : Callback) ∈ [(⟨0, true⟩ : Callback), ⟨1, false⟩] ∧
    busEmit [(⟨0, true⟩ : Callback), ⟨1, false⟩] = ([0], false) ∧
    1 ∉ (busEmit [(⟨0, true⟩ : Callback), ⟨1, false⟩]).1 := by
  refine ⟨by decide, by decide, by decide⟩

/-- C6 (amended).  emit(payload) synchronously invokes the registered
callbacks in registration order.  When no registered callback throws,
every callback registered at the time of the emission is invoked and the
iteration completes.  When a callback throws, the callbacks registered
before it are invoked, the thrower itself runs, and the remaining
callbacks are NOT invoked: the exception aborts the forEach loop and
propagates to the emitter (invocations are not isolated). -/
theorem emit_sequential_until_throw (l : List Callback) :
    ((∀ c ∈ l, c.throws = false) → busEmit l = (l.map Callback.id, true)) ∧
    (∀ pre c post, l = pre ++ c :: post → c.throws = true →
      (∀ d ∈ pre, d.throws = false) →
      busEmit l = (pre.map Callback.id ++ [c.id], false)) := by
  refine ⟨busEmit_no_throw l, ?_⟩
  intro pre c post hl hc hpre
  subst hl
  exact busEmit_throw pre c post hc hpre

/-- Witness for C6's amended theorem at a concrete bus. -/
theorem emit_sequential_until_throw_witness :
    busEmit [(⟨0, false⟩ : Callback), ⟨1, true⟩, ⟨2, false⟩] = ([0, 1], false) :=
  (emit_sequential_until_throw [⟨0, false⟩, ⟨1, true⟩, ⟨2, false⟩]).2
    [⟨0, false⟩] ⟨1, true⟩ [⟨2, false⟩] rfl rfl (by decide)

/-- C7 (counterexample).  The claim asserts that for every callback f,
after on(f); on(f) a single emit invokes f exactly twice (once per
registration).  For a throwing callback f (identity 0) registered twice
on the empty bus, the emission aborts after the first invocation: f is
invoked exactly once, not twice, because forEach has no try/catch. -/
theorem on_twice_throwing_callback_counterexample :
    (busEmit (busOn (busOn [] (⟨0, true⟩ : Callback)) ⟨0, true⟩)).1.count 0 = 1 ∧
    ¬ ((busEmit (busOn (busOn [] (⟨0, true⟩ : Callback)) ⟨0, true⟩)).1.count 0 = 2) := by
  exact ⟨by decide, by decide⟩

/-- C7 (amended).  Registration algebra of the save event bus.  on may
register the same callback several times and, provided no registered
callback throws when invoked (otherwise the emission aborts early, see
C6), an emission invokes it once per registration: after on(f); on(f),
an emit invokes f exactly two more times than before.  off removes all
registrations of f in one call, so an emit after on(f); on(f); off(f)
invokes f zero times; off is a no-op when f is absent, and it never
touches the registrations of other callbacks.  Distinct callbacks are
assumed to have distinct identities, which is how the model renders
distinct JavaScript function objects. -/
theorem bus_on_off_algebra (l : List Callback) (f g : Callback)
    (hf : f.throws = false)
    (hinj : ∀ c ∈ l, c.id = f.id → c = f) :
    ((∀ c ∈ l, c.throws = false) →
      ((busEmit (busOn (busOn l f) f)).1.count f.id
        = (busEmit l).1.count f.id + 2)) ∧
    (busOff (busOn (busOn l f) f) f = busOff l f) ∧
    ((∀ c ∈ l, c.throws = false) → (busEmit (busOff l f)).1.count f.id = 0) ∧
    (f ∉ l → busOff l f = l) ∧
    (g ≠ f → (busOff l f).count g = l.count g) := by
  refine ⟨?_, ?_, ?_, ?_, ?_⟩
  · intro hl
    have hll : ∀ c ∈ busOn (busOn l f) f, c.throws = false := by
      intro c hc
      simp only [busOn, List.mem_append, List.mem_singleton] at hc
      rcases hc with (hc | hc) | hc
      · exact hl c hc
      · simpa [hc] using hf
      · simpa [hc] using hf
    rw [busEmit_no_throw _ hll, busEmit_no_throw _ hl]
    simp [busOn, List.count_append]
  · simp [busOff, busOn, List.filter_append]
  · intro hl
    have hl' : ∀ c ∈ busOff l f, c.throws = false := by
      intro c hc
      exact hl c (List.mem_of_mem_filter hc)
    rw [busEmit_no_throw _ hl']
    rw [List.count_eq_zero]
    intro hmem
    rcases List.mem_map.mp hmem with ⟨c, hc, hcid⟩
    have hcl : c ∈ l := List.mem_of_mem_filter hc
    have hcf : c = f := hinj c hcl hcid
    have := List.of_mem_filter hc
    simp [hcf] at this
  · intro hfl
    rw [busOff, List.filter_eq_self]
    intro c hc
    simp only [ne_eq, decide_eq_true_eq]
    intro h
    exact hfl (h ▸ hc)
  · intro hgf
    rw [busOff]
    exact List.count_filter (by simp [hgf])

/-- Witness for C7 at a concrete bus and callbacks. -/
theorem bus_on_off_algebra_witness :
    ((⟨5, false⟩ : Callback).throws = false) ∧
    (busEmit (busOn (busOn [(⟨9, false⟩ : Callback)] ⟨5, false⟩) ⟨5, false⟩)).1.count 5
      = (busEmit [(⟨9, false⟩ : Callback)]).1.count 5 + 2 := by
  refine ⟨rfl, ?_⟩
  exact (bus_on_off_algebra [⟨9, false⟩] ⟨5, false⟩ ⟨9, false⟩ rfl (by decide)).1 (by decide)

/-! ## EditorManager (second document of src/unnamed/part_001)

The class owns one optional engine object (this.editor), the stored load
configuration (this.editorConfig) and the read-only flag.  The engine is
opaque; we model the behaviour the embedded code branches on. -/

/-- An engine object (DocEditor) as handed to EditorManager.create:
whether its own destroyEditor() throws, and whether invoking
downloadAs() on the raw engine throws.  The latter also covers the
property being absent, in which case calling it throws a TypeError. -/
structure DocEditor where
  destroyEditorThrows : Bool
  downloadAsThrows : Bool
deriving DecidableEq, Repr

/-- The stored load configuration (the editorConfig field): file name,
type tag, an identity for the binary payload and the optional readOnly
flag of the config. -/
structure EditorConfig where
  fileName : String
  fileType : String
  binDataId : Nat
  readOnlyOpt : Option Bool
deriving DecidableEq, Repr

/-- The mutable fields of an EditorManager instance. -/
structure ManagerState where
  editor : Option DocEditor
  editorConfig : Option EditorConfig
  readOnly : Bool
deriving DecidableEq, Repr

namespace EditorManager

/-- Embedding of EditorManager.create: the old engine (if any) is torn
down best-effort (destruction errors only logged), the new engine is
bound, and when a config is passed it is stored and the mode is set from
config.readOnly ?? false. -/
def create (s : ManagerState) (editor : DocEditor) (config : Option EditorConfig) :
    ManagerState :=
  { editor := some editor
    editorConfig := match config with
      | some c => some c
      | none => s.editorConfig
    readOnly := match config with
      | some c => c.readOnlyOpt.getD false
      | none => s.readOnly }

/-- Embedding of EditorManager.destroy.  In the source both statements of
the body are commented out, leaving only the if-shell:

  destroy(): void \x7b
    if (this.editor) \x7b
      //   this.editor.destroyEditor();
      //   this.editor = null;
    \x7d
  \x7d

so the method mutates nothing and calls nothing. -/
def destroy (s : ManagerState) : ManagerState :=
  match s.editor with
  | some _ => s
  | none => s

/-- Embedding of EditorManager.exists: this.editor !== null.
(exists is a reserved word in Lean, hence the longer name.) -/
def existsEditor (s : ManagerState) : Bool :=
  s.editor.isSome

/-- Commands the manager could issue to the live engine.  Listed for the
effect trace of setReadOnly; the disabled body issues none of them. -/
inductive EngineCommand where
  | processRightsChange (enabled : Bool)
  | sendCommand (command : String)
deriving DecidableEq, Repr

/-- Embedding of EditorManager.setReadOnly.  In the source the entire
body — the rebuild branch for read-only to editable, the
processRightsChange command path for editable to read-only, and both
assignments to this.readOnly — is commented out; the only live statement
is console.log(this.editor).  The method therefore changes no state and
issues no engine command. -/
def setReadOnly (s : ManagerState) (_readOnly : Bool) :
    ManagerState × List EngineCommand :=
  (s, [])

/-- Embedding of EditorManager.getReadOnly: returns this.readOnly. -/
def getReadOnly (s : ManagerState) : Bool :=
  s.readOnly

/-- Values the Proxy facade can hand out from its get trap. -/
inductive ProxyValue where
  | undefinedVal
  | routedDestroy
  | guardedSendCommand
  | engineProp (prop : String)
deriving DecidableEq, Repr

/-- The pair of traps of the Proxy returned by EditorManager.createProxy. -/
structure ProxyHandlers where
  getTrap : String → ProxyValue
  setTrap : String → ProxyValue → Bool

/-- Embedding of EditorManager.createProxy: the get trap routes
destroyEditor through the handle's own destroy, guards sendCommand on a
live engine, and forwards any other property of the live engine
(returning undefined when unbound); the set trap unconditionally returns
false. -/
def createProxy (s : ManagerState) : ProxyHandlers where
  getTrap := fun prop =>
    if prop = "destroyEditor" then .routedDestroy
    else if prop = "sendCommand" then .guardedSendCommand
    else match s.editor with
      | some _ => .engineProp prop
      | none => .undefinedVal
  setTrap := fun _ _ => false

/-- C9.  Every attempted property assignment on the facade returned by
createProxy is rejected: the set trap returns false for every property
name and every value, regardless of the manager's state, so no caller
can mutate the facade or rebind the handle's engine fields through it. -/
theorem proxy_set_trap_rejects_all (s : ManagerState) (prop : String) (v : ProxyValue) :
    (createProxy s).setTrap prop v = false :=
  rfl

/-- C1 (evaluation at the failing input).  Binding an engine and then
calling destroy() leaves the state completely unchanged: the engine
reference is still set and exists() still reports true, because the body
of destroy is commented out in the source.  The claim's destroy-releases
behaviour does not hold on the code. -/
theorem destroy_disabled_eval :
    destroy { editor := some ⟨false, false⟩, editorConfig := none, readOnly := false }
      = { editor := some ⟨false, false⟩, editorConfig := none, readOnly := false } ∧
    existsEditor
      (destroy { editor := some ⟨false, false⟩, editorConfig := none, readOnly := false })
      = true := by
  exact ⟨rfl, rfl⟩

/-- C2 (evaluation at the failing inputs).  With a bound editable handle,
setReadOnly(true) neither issues an engine command nor updates the
stored mode (getReadOnly stays false); with a bound read-only handle,
setReadOnly(false) does not rebuild the engine (the state, including the
engine reference, is unchanged) and getReadOnly stays true.  The whole
body of setReadOnly is commented out in the source. -/
theorem setReadOnly_disabled_eval :
    (setReadOnly
        { editor := some ⟨false, false⟩,
          editorConfig := some ⟨"a.xlsx", "xlsx", 0, some false⟩, readOnly := false } true
      = ({ editor := some ⟨false, false⟩,
           editorConfig := some ⟨"a.xlsx", "xlsx", 0, some false⟩, readOnly := false }, [])) ∧
    (getReadOnly
        (setReadOnly
          { editor := some ⟨false, false⟩,
            editorConfig := some ⟨"a.xlsx", "xlsx", 0, some false⟩, readOnly := false } true).1
      = false) ∧
    (setReadOnly
        { editor := some ⟨false, true⟩,
          editorConfig := some ⟨"b.xlsx", "xlsx", 1, some true⟩, readOnly := true } false
      = ({ editor := some ⟨false, true⟩,
           editorConfig := some ⟨"b.xlsx", "xlsx", 1, some true⟩, readOnly := true }, [])) ∧
    (getReadOnly
        (setReadOnly
          { editor := some ⟨false, true⟩,
            editorConfig := some ⟨"b.xlsx", "xlsx", 1, some true⟩, readOnly := true } false).1
      = true) := by
  exact ⟨rfl, rfl, rfl, rfl⟩

end EditorManager

/-! ## EditorManager.export over the save event bus

export() checks the handle is bound, then, inside the returned promise,
arms a 3000 ms timer, registers the fresh one-shot handleSave closure on
saveEventBus and triggers (editor as any).downloadAs() in a try/catch.
We embed the synchronous start and the two asynchronous completion
callbacks (a save emission reaching handleSave, and the timer firing) as
separate functions of the bus state.  The handleSave closure is a fresh
callback, modelled by an identity that is not yet on the bus; it never
throws (its body only clears the timer, unsubscribes and resolves). -/

/-- Outcome of the synchronous part of export(). -/
inductive ExportStart where
  /-- The handle was unbound: export threw 'Editor not available for
  export' before arming any timer or registering any listener. -/
  | notAvailable (err : String)
  /-- downloadAs() threw synchronously: the timer was cleared, the
  listener removed, and the promise rejected with the thrown error. -/
  | failedSync (busAfter : List Callback)
  /-- downloadAs() returned: the listener stays registered and the
  timeout timer armed, awaiting a save emission. -/
  | waiting (busAfter : List Callback)
deriving DecidableEq, Repr

/-- How the pending export promise was settled. -/
inductive ExportSettle where
  | resolved (payloadId : Nat)
  | rejectedTimeout (err : String)
deriving DecidableEq, Repr

namespace EditorManager

/-- Embedding of the synchronous part of EditorManager.export. -/
def exportRun (s : ManagerState) (bus : List Callback) (freshId : Nat) : ExportStart :=
  match s.editor with
  | none => .notAvailable "Editor not available for export"
  | some ed =>
      let bus1 := busOn bus ⟨freshId, false⟩
      if ed.downloadAsThrows then
        .failedSync (busOff bus1 ⟨freshId, false⟩)
      else
        .waiting bus1

/-- Embedding of the handleSave closure: clearTimeout(timeout);
saveEventBus.off(handleSave); resolve(data). -/
def exportOnSave (bus : List Callback) (freshId : Nat) (payloadId : Nat) :
    List Callback × ExportSettle :=
  (busOff bus ⟨freshId, false⟩, .resolved payloadId)

/-- Embedding of the export timeout callback:
saveEventBus.off(handleSave); reject(Export timeout). -/
def exportOnTimeout (bus : List Callback) (freshId : Nat) :
    List Callback × ExportSettle :=
  (busOff bus ⟨freshId, false⟩, .rejectedTimeout "Export timeout: no data received")

/-- Removing a callback that was freshly appended restores the bus. -/
theorem busOff_busOn_fresh (bus : List Callback) (c : Callback) (h : c ∉ bus) :
    busOff (busOn bus c) c = bus := by
  rw [busOn, busOff, List.filter_append]
  have h1 : List.filter (fun x => decide (x ≠ c)) bus = bus := by
    rw [List.filter_eq_self]
    intro a ha
    simp only [ne_eq, decide_eq_true_eq]
    intro hac
    exact h (hac ▸ ha)
  have h2 : List.filter (fun x => decide (x ≠ c)) [c] = [] := by simp
  rw [h1, h2, List.append_nil]

/-- C4.  For a fresh handleSave identity: on an unbound handle, export
throws its not-available error before registering any listener or timer;
on a bound handle whose downloadAs() throws synchronously, the timer is
cleared, the listener is removed (the bus is exactly as before) and the
error propagates; otherwise export waits with exactly the one fresh
listener added, and then either a save emission settles it (resolved
with that payload, listener removed, timer cleared) or the timeout fires
(rejected with the export-timeout error, listener removed).  Every
terminal path settles the promise exactly once and leaves the bus as it
was before the call: no dangling subscription. -/
theorem export_flow (s : ManagerState) (bus : List Callback) (freshId : Nat)
    (hfresh : (⟨freshId, false⟩ : Callback) ∉ bus) :
    (s.editor = none →
      exportRun s bus freshId = .notAvailable "Editor not available for export") ∧
    (∀ ed, s.editor = some ed → ed.downloadAsThrows = true →
      exportRun s bus freshId = .failedSync bus) ∧
    (∀ ed, s.editor = some ed → ed.downloadAsThrows = false →
      exportRun s bus freshId = .waiting (bus ++ [⟨freshId, false⟩]) ∧
      (∀ payloadId, exportOnSave (bus ++ [⟨freshId, false⟩]) freshId payloadId
        = (bus, .resolved payloadId)) ∧
      exportOnTimeout (bus ++ [⟨freshId, false⟩]) freshId
        = (bus, .rejectedTimeout "Export timeout: no data received")) := by
  have hrestore : busOff (bus ++ [⟨freshId, false⟩]) ⟨freshId, false⟩ = bus :=
    busOff_busOn_fresh bus _ hfresh
  refine ⟨?_, ?_, ?_⟩
  · intro h
    simp [exportRun, h]
  · intro ed hed hthrow
    simp [exportRun, hed, hthrow, busOn, hrestore]
  · intro ed hed hthrow
    refine ⟨by simp [exportRun, hed, hthrow, busOn], ?_, ?_⟩
    · intro payloadId
      simp [exportOnSave, hrestore]
    · simp [exportOnTimeout, hrestore]

/-- Witness for C4 at a concrete bound handle and empty bus. -/
theorem export_flow_witness :
    ((⟨3, false⟩ : Callback) ∉ ([] : List Callback)) ∧
    exportOnSave ([] ++ [⟨3, false⟩]) 3 42 = ([], .resolved 42) := by
  refine ⟨by decide, ?_⟩
  exact ((export_flow { editor := some ⟨false, false⟩, editorConfig := none, readOnly := false }
    [] 3 (by decide)).2.2 ⟨false, false⟩ rfl rfl).2.1 42

end EditorManager

/-! ## OnlyOfficeServiceClient (first document of src/unnamed/part_001)

The client keeps an iframe transport, a readiness flag with a pending
readiness resolver, a pending-request table keyed by requestId, the
event-listener table and the request-id counter.  Promise settlements,
timers and postMessage traffic are modelled as an effect trace. -/

/-- The mutable fields of an OnlyOfficeServiceClient. -/
structure ClientState where
  /-- this.iframe !== null. -/
  hasIframe : Bool
  /-- this.iframe.contentWindow is non-null (only meaningful when an
  iframe is attached). -/
  contentWindowOk : Bool
  ready : Bool
  /-- this.readyResolve !== null: the init promise is still unresolved. -/
  readyResolvePresent : Bool
  /-- pendingRequests: requestId mapped to the request type (the resolve,
  reject and timer handles are represented through effects). -/
  pendingRequests : List (String × String)
  /-- eventListeners: event type mapped to the registered callback ids. -/
  eventListeners : List (String × List Nat)
  requestIdCounter : Nat
deriving DecidableEq, Repr

/-- Observable effects of client operations. -/
inductive ClientEffect where
  | armTimer (requestId : String)
  | clearTimer (requestId : String)
  | resolveRequest (requestId : String)
  | rejectRequest (requestId : String) (err : String)
  | resolveReady
  | postToIframe (msgType : String) (requestId : String)
  | invokeListener (event : String) (listenerId : Nat)
  | removeIframeFromDom
deriving DecidableEq, Repr

/-- A message delivered to the window message listener. -/
structure ServiceMessage where
  msgType : String
  requestId : Option String
  hasError : Bool
  errMsg : String
deriving DecidableEq, Repr

namespace ServiceClient

/-- The three broadcast event types the listener fans out. -/
def forwardedEvents : List String :=
  ["DOCUMENT_READY", "LOADING_CHANGE", "SAVE_DOCUMENT"]

/-- Embedding of the handler installed by setupMessageListener: ignore
messages with no type; SERVICE_READY flips the ready flag and resolves
the init promise once; a message whose requestId is in the pending table
clears that request's timer, removes the entry and settles it (reject on
an error field, resolve otherwise); otherwise the three forwarded event
types are fanned out to their registered listeners. -/
def handleMessage (s : ClientState) (msg : ServiceMessage) :
    ClientState × List ClientEffect :=
  if msg.msgType = "" then (s, [])
  else if msg.msgType = "SERVICE_READY" then
    ({ s with ready := true, readyResolvePresent := false },
      if s.readyResolvePresent then [.resolveReady] else [])
  else
    let eventBranch : ClientState × List ClientEffect :=
      if msg.msgType ∈ forwardedEvents then
        match s.eventListeners.find? (fun kv => kv.1 = msg.msgType) with
        | some kv => (s, kv.2.map (ClientEffect.invokeListener msg.msgType))
        | none => (s, [])
      else (s, [])
    match msg.requestId with
    | some rid =>
        if (s.pendingRequests.find? (fun kv => kv.1 = rid)).isSome then
          ({ s with pendingRequests := s.pendingRequests.filter (fun kv => kv.1 ≠ rid) },
            if msg.hasError then [.clearTimer rid, .rejectRequest rid msg.errMsg]
            else [.clearTimer rid, .resolveRequest rid])
        else eventBranch
    | none => eventBranch

/-- Result of the synchronous part of sendMessage. -/
inductive SendResult where
  /-- this.ready was false: sendMessage suspends on this.readyPromise
  before doing anything else (on resume it proceeds as when ready). -/
  | blockedOnReady
  | threw (err : String)
  | sent (requestId : String)
deriving DecidableEq, Repr

/-- Embedding of sendMessage: awaits readiness if needed, throws
'Iframe not initialized' when no iframe or contentWindow is attached,
otherwise increments the counter, builds the requestId from it and
Date.now(), arms the timeout timer, stores the pending entry and posts
the request to the iframe. -/
def sendMessage (s : ClientState) (msgType : String) (now : Nat) :
    ClientState × SendResult × List ClientEffect :=
  if ¬ s.ready then (s, .blockedOnReady, [])
  else if ¬ s.hasIframe ∨ ¬ s.contentWindowOk then
    (s, .threw "Iframe not initialized", [])
  else
    let counter := s.requestIdCounter + 1
    let rid := "req_" ++ toString counter ++ "_" ++ toString now
    ({ s with requestIdCounter := counter,
              pendingRequests := s.pendingRequests ++ [(rid, msgType)] },
      .sent rid,
      [.armTimer rid, .postToIframe msgType rid])

/-- Embedding of the timeout callback armed by sendMessage for a request:
this.pendingRequests.delete(requestId);
reject(new Error(Request timeout: type)). -/
def requestTimeoutFire (s : ClientState) (rid : String) (msgType : String) :
    ClientState × List ClientEffect :=
  ({ s with pendingRequests := s.pendingRequests.filter (fun kv => kv.1 ≠ rid) },
    [.rejectRequest rid ("Request timeout: " ++ msgType)])

/-- Embedding of destroyClient: remove the iframe from the DOM and drop
the reference, clear the ready flag, then for every pending request
clear its timer and reject it with 'Client destroyed', empty the pending
table and clear all event listeners. -/
def destroyClient (s : ClientState) : ClientState × List ClientEffect :=
  ({ s with hasIframe := false, contentWindowOk := false, ready := false,
            pendingRequests := [], eventListeners := [] },
    (if s.hasIframe then [ClientEffect.removeIframeFromDom] else [])
      ++ s.pendingRequests.flatMap
          (fun kv => [ClientEffect.clearTimer kv.1,
                      ClientEffect.rejectRequest kv.1 "Client destroyed"]))

/-- After filtering a key out of an association list, a lookup of that
key fails. -/
theorem find?_filter_self (l : List (String × String)) (rid : String) :
    (l.filter (fun kv => kv.1 ≠ rid)).find? (fun kv => kv.1 = rid) = none := by
  rw [List.find?_eq_none]
  intro kv hkv
  have := List.of_mem_filter hkv
  simpa using this

/-- Filtering a key out of an association list leaves lookups of every
other key unchanged. -/
theorem find?_filter_other (l : List (String × String)) (rid r : String) (h : r ≠ rid) :
    (l.filter (fun kv => kv.1 ≠ rid)).find? (fun kv => kv.1 = r)
      = l.find? (fun kv => kv.1 = r) := by
  induction l with
  | nil => rfl
  | cons kv rest ih =>
      by_cases hk : kv.1 = rid
      · have hr : ¬ (kv.1 = r) := by
          rw [hk]
          exact fun hrr => h hrr.symm
        rw [List.filter_cons_of_neg (by simp [hk]),
            List.find?_cons_of_neg _ (by simp [hr]), ih]
      · by_cases hr : kv.1 = r
        · rw [List.filter_cons_of_pos (by simp [hk]),
              List.find?_cons_of_pos _ (by simp [hr]),
              List.find?_cons_of_pos _ (by simp [hr])]
        · rw [List.filter_cons_of_pos (by simp [hk]),
              List.find?_cons_of_neg _ (by simp [hr]),
              List.find?_cons_of_neg _ (by simp [hr]), ih]

/-- C5 (counterexample).  A message carrying a requestId that is absent
from the pending table does produce an observable effect when its type
is one of the forwarded event types: with a listener registered for
SAVE_DOCUMENT and an empty pending table, a SAVE_DOCUMENT message
bearing the stale requestId req_1_99 is fanned out to the listener, so
the effect trace is not empty as the claim demands. -/
theorem stale_request_id_effect_counterexample :
    (ServiceClient.handleMessage
        { hasIframe := true, contentWindowOk := true, ready := true,
          readyResolvePresent := false, pendingRequests := [],
          eventListeners := [("SAVE_DOCUMENT", [7])], requestIdCounter := 1 }
        { msgType := "SAVE_DOCUMENT", requestId := some "req_1_99",
          hasError := false, errMsg := "" }).2
      = [ClientEffect.invokeListener "SAVE_DOCUMENT" 7] ∧
    (({ hasIframe := true, contentWindowOk := true, ready := true,
        readyResolvePresent := false, pendingRequests := [],
        eventListeners := [("SAVE_DOCUMENT", [7])], requestIdCounter := 1 }
        : ClientState).pendingRequests.find? (fun kv => kv.1 = "req_1_99") = none) ∧
    (ServiceClient.handleMessage
        { hasIframe := true, contentWindowOk := true, ready := true,
          readyResolvePresent := false, pendingRequests := [],
          eventListeners := [("SAVE_DOCUMENT", [7])], requestIdCounter := 1 }
        { msgType := "SAVE_DOCUMENT", requestId := some "req_1_99",
          hasError := false, errMsg := "" }).2 ≠ [] := by
  refine ⟨by decide, by decide, by decide⟩

/-- C5 (amended).  First half, stated for every client state — in
particular one whose pending table holds the request — with no
hypothesis: when the timeout timer of a request fires before a matching
response, the timeout callback removes the pending entry for its
requestId (other entries untouched) and rejects the promise with a
timeout error identifying the request type.  Second half: a message
arriving with a requestId not in the pending table settles no request
(no resolve, no reject, no timer is touched) and leaves the pending
table unchanged; and unless its type is SERVICE_READY or one of the
forwarded event types (DOCUMENT_READY, LOADING_CHANGE, SAVE_DOCUMENT)
it produces no observable effect at all and leaves the whole state
unchanged. -/
theorem rpc_timeout_and_stale_response (s : ClientState) (rid msgType : String) :
    ((ServiceClient.requestTimeoutFire s rid msgType).1.pendingRequests.find?
        (fun kv => kv.1 = rid) = none ∧
      (∀ r, r ≠ rid →
        (ServiceClient.requestTimeoutFire s rid msgType).1.pendingRequests.find?
            (fun kv => kv.1 = r)
          = s.pendingRequests.find? (fun kv => kv.1 = r)) ∧
      (ServiceClient.requestTimeoutFire s rid msgType).2
        = [ClientEffect.rejectRequest rid ("Request timeout: " ++ msgType)]) ∧
    (∀ msg : ServiceMessage, msg.requestId = some rid →
      s.pendingRequests.find? (fun kv => kv.1 = rid) = none →
      (ServiceClient.handleMessage s msg).1.pendingRequests = s.pendingRequests ∧
      (∀ r, ClientEffect.resolveRequest r ∉ (ServiceClient.handleMessage s msg).2) ∧
      (∀ r e, ClientEffect.rejectRequest r e ∉ (ServiceClient.handleMessage s msg).2) ∧
      (∀ r, ClientEffect.clearTimer r ∉ (ServiceClient.handleMessage s msg).2) ∧
      (msg.msgType ≠ "SERVICE_READY" → msg.msgType ∉ ServiceClient.forwardedEvents →
        ServiceClient.handleMessage s msg = (s, []))) := by
  refine ⟨⟨find?_filter_self _ _, fun r hr => find?_filter_other _ _ _ hr, rfl⟩, ?_⟩
  intro msg hrid hstale
  have hfind : (s.pendingRequests.find? (fun kv => kv.1 = rid)).isSome = false := by
    rw [hstale]; rfl
  by_cases h0 : msg.msgType = ""
  · simp [ServiceClient.handleMessage, h0]
  · by_cases hready : msg.msgType = "SERVICE_READY"
    · refine ⟨?_, ?_, ?_, ?_, ?_⟩
      · simp [ServiceClient.handleMessage, h0, hready]
      · intro r
        simp only [ServiceClient.handleMessage, h0, hready]
        split <;> simp
      · intro r e
        simp only [ServiceClient.handleMessage, h0, hready]
        split <;> simp
      · intro r
        simp only [ServiceClient.handleMessage, h0, hready]
        split <;> simp
      · intro hne _
        exact absurd hready hne
    · by_cases hev : msg.msgType ∈ ServiceClient.forwardedEvents
      · rcases hlf : s.eventListeners.find? (fun kv => kv.1 = msg.msgType) with _ | kv <;>
          · refine ⟨?_, ?_, ?_, ?_, ?_⟩
            · simp [ServiceClient.handleMessage, h0, hready, hrid, hfind, hev, hlf]
            · intro r
              simp [ServiceClient.handleMessage, h0, hready, hrid, hfind, hev, hlf]
            · intro r e
              simp [ServiceClient.handleMessage, h0, hready, hrid, hfind, hev, hlf]
            · intro r
              simp [ServiceClient.handleMessage, h0, hready, hrid, hfind, hev, hlf]
            · intro _ hne
              exact absurd hev hne
      · refine ⟨?_, ?_, ?_, ?_, ?_⟩
        · simp [ServiceClient.handleMessage, h0, hready, hrid, hfind, hev]
        · intro r
          simp [ServiceClient.handleMessage, h0, hready, hrid, hfind, hev]
        · intro r e
          simp [ServiceClient.handleMessage, h0, hready, hrid, hfind, hev]
        · intro r
          simp [ServiceClient.handleMessage, h0, hready, hrid, hfind, hev]
        · intro _ _
          simp [ServiceClient.handleMessage, h0, hready, hrid, hfind, hev]

/-- Witness for C5's amended theorem at a concrete client whose pending
table holds req_1_10: firing that request's timeout really deletes its
entry and rejects it with the type-identifying error, and a late
RESPONSE message bearing the absent requestId req_9_9 leaves the state
untouched with no effect. -/
theorem rpc_timeout_and_stale_response_witness :
    ((ServiceClient.requestTimeoutFire
        { hasIframe := true, contentWindowOk := true, ready := true,
          readyResolvePresent := false,
          pendingRequests := [("req_1_10", "EXPORT")],
          eventListeners := [], requestIdCounter := 9 }
        "req_1_10" "EXPORT").1.pendingRequests.find?
          (fun kv => kv.1 = "req_1_10") = none) ∧
    ((ServiceClient.requestTimeoutFire
        { hasIframe := true, contentWindowOk := true, ready := true,
          readyResolvePresent := false,
          pendingRequests := [("req_1_10", "EXPORT")],
          eventListeners := [], requestIdCounter := 9 }
        "req_1_10" "EXPORT").2
      = [ClientEffect.rejectRequest "req_1_10" ("Request timeout: " ++ "EXPORT")]) ∧
    (({ msgType := "RESPONSE", requestId := some "req_9_9", hasError := false,
        errMsg := "" } : ServiceMessage).requestId = some "req_9_9") ∧
    (([("req_1_10", "EXPORT")]).find? (fun kv => kv.1 = "req_9_9") = none) ∧
    ServiceClient.handleMessage
        { hasIframe := true, contentWindowOk := true, ready := true,
          readyResolvePresent := false,
          pendingRequests := [("req_1_10", "EXPORT")],
          eventListeners := [], requestIdCounter := 9 }
        { msgType := "RESPONSE", requestId := some "req_9_9", hasError := false,
          errMsg := "" }
      = ({ hasIframe := true, contentWindowOk := true, ready := true,
           readyResolvePresent := false,
           pendingRequests := [("req_1_10", "EXPORT")],
           eventListeners := [], requestIdCounter := 9 }, []) := by
  refine ⟨?_, ?_, rfl, by decide, ?_⟩
  · exact (rpc_timeout_and_stale_response
      { hasIframe := true, contentWindowOk := true, ready := true,
        readyResolvePresent := false,
        pendingRequests := [("req_1_10", "EXPORT")],
        eventListeners := [], requestIdCounter := 9 }
      "req_1_10" "EXPORT").1.1
  · exact (rpc_timeout_and_stale_response
      { hasIframe := true, contentWindowOk := true, ready := true,
        readyResolvePresent := false,
        pendingRequests := [("req_1_10", "EXPORT")],
        eventListeners := [], requestIdCounter := 9 }
      "req_1_10" "EXPORT").1.2.2
  · exact ((rpc_timeout_and_stale_response
      { hasIframe := true, contentWindowOk := true, ready := true,
        readyResolvePresent := false,
        pendingRequests := [("req_1_10", "EXPORT")],
        eventListeners := [], requestIdCounter := 9 }
      "req_9_9" "EXPORT").2
      { msgType := "RESPONSE", requestId := some "req_9_9", hasError := false,
        errMsg := "" }
      rfl (by decide)).2.2.2.2 (by decide) (by decide)

/-- C10.  When the channel is ready but no iframe (or no contentWindow)
is attached, sendMessage throws 'Iframe not initialized' before
generating a requestId: the returned state is exactly the input state —
the counter is not incremented, no pending entry is created, and no
effect (timer, postMessage) is produced. -/
theorem sendMessage_no_iframe (s : ClientState) (msgType : String) (now : Nat)
    (hready : s.ready = true)
    (hif : s.hasIframe = false ∨ s.contentWindowOk = false) :
    ServiceClient.sendMessage s msgType now
      = (s, .threw "Iframe not initialized", []) := by
  rcases hif with h | h <;> simp [ServiceClient.sendMessage, hready, h]

/-- Witness for C10 at a concrete ready state with no iframe. -/
theorem sendMessage_no_iframe_witness :
    (({ hasIframe := false, contentWindowOk := false, ready := true,
        readyResolvePresent := false, pendingRequests := [],
        eventListeners := [], requestIdCounter := 4 } : ClientState).ready = true) ∧
    ServiceClient.sendMessage
        { hasIframe := false, contentWindowOk := false, ready := true,
          readyResolvePresent := false, pendingRequests := [],
          eventListeners := [], requestIdCounter := 4 } "EXPORT" 1000
      = ({ hasIframe := false, contentWindowOk := false, ready := true,
           readyResolvePresent := false, pendingRequests := [],
           eventListeners := [], requestIdCounter := 4 },
         .threw "Iframe not initialized", []) := by
  refine ⟨rfl, ?_⟩
  exact sendMessage_no_iframe _ "EXPORT" 1000 rfl (Or.inl rfl)

/-- The per-request teardown block emitted by destroyClient. -/
def teardownEffects (l : List (String × String)) : List ClientEffect :=
  l.flatMap (fun kv => [ClientEffect.clearTimer kv.1,
                        ClientEffect.rejectRequest kv.1 "Client destroyed"])

/-- destroyClient's effect trace is the optional DOM detach followed by
the per-request teardown blocks. -/
theorem destroyClient_effects (s : ClientState) :
    (ServiceClient.destroyClient s).2
      = (if s.hasIframe then [ClientEffect.removeIframeFromDom] else [])
        ++ teardownEffects s.pendingRequests :=
  rfl

/-- Counting the rejections in the teardown trace counts the pending
requestIds. -/
theorem count_reject_teardown (l : List (String × String)) (r : String) :
    (teardownEffects l).count (ClientEffect.rejectRequest r "Client destroyed")
      = (l.map Prod.fst).count r := by
  induction l with
  | nil => rfl
  | cons kv rest ih =>
      rw [teardownEffects, List.flatMap_cons, List.count_append]
      rw [teardownEffects] at ih
      rw [ih, List.map_cons, List.count_cons]
      by_cases h : kv.1 = r
      · simp only [h, List.count_cons]
        simp
        omega
      · have h2 : ClientEffect.rejectRequest r "Client destroyed"
            ≠ ClientEffect.rejectRequest kv.1 "Client destroyed" := by
          intro hc
          cases hc
          exact h rfl
        simp [List.count_cons, h2.symm, fun hc : r = kv.1 => h hc.symm, h]

/-- Counting the timer clears in the teardown trace counts the pending
requestIds. -/
theorem count_clear_teardown (l : List (String × String)) (r : String) :
    (teardownEffects l).count (ClientEffect.clearTimer r)
      = (l.map Prod.fst).count r := by
  induction l with
  | nil => rfl
  | cons kv rest ih =>
      rw [teardownEffects, List.flatMap_cons, List.count_append]
      rw [teardownEffects] at ih
      rw [ih, List.map_cons, List.count_cons]
      by_cases h : kv.1 = r
      · simp only [h, List.count_cons]
        simp
        omega
      · have h2 : ClientEffect.clearTimer r ≠ ClientEffect.clearTimer kv.1 := by
          intro hc
          cases hc
          exact h rfl
        simp [List.count_cons, h2.symm, fun hc : r = kv.1 => h hc.symm, h]

/-- Every pending request contributes an ordered clear-then-reject block
to the teardown trace. -/
theorem block_sublist_teardown (l : List (String × String)) (kv : String × String)
    (h : kv ∈ l) :
    List.Sublist [ClientEffect.clearTimer kv.1,
      ClientEffect.rejectRequest kv.1 "Client destroyed"] (teardownEffects l) := by
  induction l with
  | nil => cases h
  | cons hd rest ih =>
      rw [teardownEffects, List.flatMap_cons]
      rcases List.mem_cons.mp h with h1 | h1
      · subst h1
        exact (List.sublist_append_left _ _)
      · exact (ih h1).trans (List.sublist_append_right _ _)

/-- Rejections in the teardown trace only carry the Closed-style message
and only name pending requestIds. -/
theorem mem_reject_teardown (l : List (String × String)) (r e : String)
    (h : ClientEffect.rejectRequest r e ∈ teardownEffects l) :
    e = "Client destroyed" ∧ r ∈ l.map Prod.fst := by
  induction l with
  | nil => cases h
  | cons kv rest ih =>
      rw [teardownEffects, List.flatMap_cons, List.mem_append] at h
      rcases h with h1 | h1
      · simp only [List.mem_cons, List.mem_singleton] at h1
        rcases h1 with h2 | h2 | h2
        · cases h2
        · cases h2
          exact ⟨rfl, List.mem_cons_self _ _⟩
        · cases h2
      · have := ih h1
        exact ⟨this.1, List.mem_cons_of_mem _ this.2⟩

/-- The teardown trace never resolves a request. -/
theorem resolve_not_mem_teardown (l : List (String × String)) (r : String) :
    ClientEffect.resolveRequest r ∉ teardownEffects l := by
  induction l with
  | nil => exact List.not_mem_nil _
  | cons kv rest ih =>
      rw [teardownEffects, List.flatMap_cons, List.mem_append]
      intro h
      rcases h with h1 | h1
      · simp at h1
      · exact ih h1

/-- C8.  destroyClient leaves the pending table empty, clears every
event-listener registration, marks the client not ready and detaches the
iframe transport; its effect trace clears the timer of every pending
request and rejects that request with the Closed-style error 'Client
destroyed' exactly once (the clear preceding the reject), rejects
nothing else, and resolves nothing — so each formerly pending request is
settled exactly once.  Uniqueness of the pending requestIds is the
pending-table invariant maintained by sendMessage and the message
handler. -/
theorem destroyClient_teardown (s : ClientState)
    (hnodup : (s.pendingRequests.map Prod.fst).Nodup) :
    (ServiceClient.destroyClient s).1.pendingRequests = [] ∧
    (ServiceClient.destroyClient s).1.eventListeners = [] ∧
    (ServiceClient.destroyClient s).1.hasIframe = false ∧
    (ServiceClient.destroyClient s).1.ready = false ∧
    (∀ kv ∈ s.pendingRequests,
      (ServiceClient.destroyClient s).2.count
          (ClientEffect.rejectRequest kv.1 "Client destroyed") = 1 ∧
      (ServiceClient.destroyClient s).2.count (ClientEffect.clearTimer kv.1) = 1 ∧
      List.Sublist
        [ClientEffect.clearTimer kv.1,
         ClientEffect.rejectRequest kv.1 "Client destroyed"]
        (ServiceClient.destroyClient s).2) ∧
    (∀ r e, ClientEffect.rejectRequest r e ∈ (ServiceClient.destroyClient s).2 →
      e = "Client destroyed" ∧ r ∈ s.pendingRequests.map Prod.fst) ∧
    (∀ r, ClientEffect.resolveRequest r ∉ (ServiceClient.destroyClient s).2) := by
  have heff := destroyClient_effects s
  have hpre : ∀ x ∈ (if s.hasIframe then [ClientEffect.removeIframeFromDom] else []),
      x = ClientEffect.removeIframeFromDom := by
    intro x hx
    by_cases h : s.hasIframe <;> simp [h] at hx
    exact hx
  refine ⟨rfl, rfl, rfl, rfl, ?_, ?_, ?_⟩
  · intro kv hkv
    have hmem : kv.1 ∈ s.pendingRequests.map Prod.fst := List.mem_map_of_mem _ hkv
    have hcount : (s.pendingRequests.map Prod.fst).count kv.1 = 1 :=
      List.count_eq_one_of_mem hnodup hmem
    refine ⟨?_, ?_, ?_⟩
    · rw [heff, List.count_append, count_reject_teardown, hcount]
      have : (if s.hasIframe then [ClientEffect.removeIframeFromDom] else []).count
          (ClientEffect.rejectRequest kv.1 "Client destroyed") = 0 := by
        by_cases h : s.hasIframe <;> simp [h]
      rw [this]
    · rw [heff, List.count_append, count_clear_teardown, hcount]
      have : (if s.hasIframe then [ClientEffect.removeIframeFromDom] else []).count
          (ClientEffect.clearTimer kv.1) = 0 := by
        by_cases h : s.hasIframe <;> simp [h]
      rw [this]
    · rw [heff]
      exact (block_sublist_teardown _ kv hkv).trans (List.sublist_append_right _ _)
  · intro r e hmem
    rw [heff, List.mem_append] at hmem
    rcases hmem with h1 | h1
    · cases hpre _ h1
    · exact mem_reject_teardown _ r e h1
  · intro r hmem
    rw [heff, List.mem_append] at hmem
    rcases hmem with h1 | h1
    · cases hpre _ h1
    · exact resolve_not_mem_teardown _ r h1

/-- Witness for C8 at a concrete client with two pending requests. -/
theorem destroyClient_teardown_witness :
    (((([("req_1_10", "EXPORT"), ("req_2_20", "DESTROY")] :
        List (String × String))).map Prod.fst).Nodup) ∧
    (ServiceClient.destroyClient
        { hasIframe := true, contentWindowOk := true, ready := true,
          readyResolvePresent := false,
          pendingRequests := [("req_1_10", "EXPORT"), ("req_2_20", "DESTROY")],
          eventListeners := [("SAVE_DOCUMENT", [1])], requestIdCounter := 2
          }).1.pendingRequests = [] := by
  refine ⟨by decide, ?_⟩
  exact (destroyClient_teardown
    { hasIframe := true, contentWindowOk := true, ready := true,
      readyResolvePresent := false,
      pendingRequests := [("req_1_10", "EXPORT"), ("req_2_20", "DESTROY")],
      eventListeners := [("SAVE_DOCUMENT", [1])], requestIdCounter := 2 }
    (by decide)).1

end ServiceClient

/-! ## useTabCache LRU cache (src/app/multi/tabs/page.tsx)

The hook keeps a Map from tab id to TabCacheItem.  A JavaScript Map
iterates in insertion order and set on an existing key keeps its
position, so the Map is embedded as an insertion-ordered association
list.  Timestamps come from Date.now(). -/

namespace TabCache

/-- Number.MAX_SAFE_INTEGER, the initial oldestTime of the eviction
scan. -/
def maxSafeInteger : Nat := 2 ^ 53 - 1

/-- The renderProps stored with a tab: an identity for the
fileName / file / containerId configuration, whether a manager handle is
attached, and whether destroying that manager throws. -/
structure RenderProps where
  configId : Nat
  hasManager : Bool
  managerDestroyThrows : Bool
deriving DecidableEq, Repr

/-- A cache entry (TabCacheItem): the lastAccessed stamp and the stored
renderProps (the id field of the source item merely repeats the key). -/
structure TabCacheItem where
  lastAccessed : Nat
  props : RenderProps
deriving DecidableEq, Repr

/-- The hook's Map, in insertion order. -/
abbrev Cache := List (String × TabCacheItem)

/-- Map.set: overwrite in place when the key exists (keeping its
position), append otherwise. -/
def mapSet (m : Cache) (k : String) (v : TabCacheItem) : Cache :=
  if m.any (fun kv => kv.1 = k) then
    m.map (fun kv => if kv.1 = k then (k, v) else kv)
  else m ++ [(k, v)]

/-- One step of the eviction scan: take the entry iff its lastAccessed
is strictly below the accumulator (so ties keep the earlier entry). -/
def oldestScan (acc : String × Nat) (kv : String × TabCacheItem) : String × Nat :=
  if kv.2.lastAccessed < acc.2 then (kv.1, kv.2.lastAccessed) else acc

/-- The eviction scan of addToCache: fold over the entries in iteration
order starting from oldestKey = '' and
oldestTime = Number.MAX_SAFE_INTEGER. -/
def findOldest (m : Cache) : String × Nat :=
  m.foldl oldestScan ("", maxSafeInteger)

/-- Observable effects of the eviction loop: the manager.destroy() call
attempted inside try/catch (the flag records whether it threw) and the
Map.delete. -/
inductive EvictEffect where
  | destroyCall (key : String) (threw : Bool)
  | removeEntry (key : String)
deriving DecidableEq, Repr

/-- The while loop of addToCache: while the table is over capacity, scan
for the oldest entry; stop if the scan produced the falsy key '',
otherwise destroy the entry's manager (if any, errors swallowed) and
delete the entry.  Each iteration that continues removes an entry, so
the loop runs at most m.length times; that bound is passed as fuel to
make the recursion structural without changing the result. -/
def evictLoopGo : Nat → Cache → Nat → Cache × List EvictEffect
  | 0, m, _ => (m, [])
  | fuel + 1, m, maxCacheSize =>
      if maxCacheSize < m.length then
        if (findOldest m).1 = "" then (m, [])
        else
          let k := (findOldest m).1
          let destroyEffs : List EvictEffect :=
            match m.find? (fun kv => kv.1 = k) with
            | some kv =>
                if kv.2.props.hasManager then
                  [.destroyCall k kv.2.props.managerDestroyThrows]
                else []
            | none => []
          let r := evictLoopGo fuel (m.filter (fun kv => kv.1 ≠ k)) maxCacheSize
          (r.1, destroyEffs ++ (.removeEntry k :: r.2))
      else (m, [])

/-- The eviction loop of addToCache. -/
def evictLoop (m : Cache) (maxCacheSize : Nat) : Cache × List EvictEffect :=
  evictLoopGo m.length m maxCacheSize

/-- Embedding of addToCache: stamp the entry with the current time, set
it, then run the eviction loop. -/
def addToCache (m : Cache) (maxCacheSize now : Nat) (tabId : String)
    (props : RenderProps) : Cache × List EvictEffect :=
  evictLoop (mapSet m tabId ⟨now, props⟩) maxCacheSize

/-- Embedding of getFromCache: on a hit, stamp the item's lastAccessed
with the current time (in place) and return its renderProps; on a miss
return nothing and leave the table alone. -/
def getFromCache (m : Cache) (now : Nat) (tabId : String) :
    Cache × Option RenderProps :=
  match m.find? (fun kv => kv.1 = tabId) with
  | some kv =>
      (m.map (fun x => if x.1 = tabId then (tabId, ⟨now, x.2.props⟩) else x),
        some kv.2.props)
  | none => (m, none)

/-- The keys deleted by a trace of eviction effects, in order. -/
def evictedKeys (effs : List EvictEffect) : List String :=
  effs.filterMap fun e =>
    match e with
    | .removeEntry k => some k
    | .destroyCall _ _ => none

/-- A run of the LRU eviction loop, as the specification describes it:
entries are evicted only while the table is over capacity, each evicted
entry carries the minimum lastAccessed among the entries present at the
moment of its eviction, eviction removes the entry from the table
unconditionally (whatever its manager's destroy did), and the loop stops
with the table within capacity. -/
inductive EvictSteps (maxCacheSize : Nat) : Cache → List String → Cache → Prop where
  | done (m : Cache) (h : m.length ≤ maxCacheSize) : EvictSteps maxCacheSize m [] m
  | step (m : Cache) (k : String) (it : TabCacheItem) (ks : List String) (m' : Cache)
      (hover : maxCacheSize < m.length)
      (hmem : (k, it) ∈ m)
      (hmin : ∀ kv ∈ m, it.lastAccessed ≤ kv.2.lastAccessed)
      (hrest : EvictSteps maxCacheSize (m.filter (fun kv => kv.1 ≠ k)) ks m')
      : EvictSteps maxCacheSize m (k :: ks) m'

/-- A finished eviction run leaves the table within capacity. -/
theorem EvictSteps.length_le {maxCacheSize : Nat} {m : Cache} {ks : List String}
    {m' : Cache} (h : EvictSteps maxCacheSize m ks m') : m'.length ≤ maxCacheSize := by
  induction h with
  | done _ h => exact h
  | step _ _ _ _ _ _ _ _ _ ih => exact ih

/-- When no entry beats the accumulator, the eviction scan keeps it. -/
theorem foldl_oldestScan_no_update (m : Cache) (a : String × Nat)
    (h : ∀ kv ∈ m, ¬ kv.2.lastAccessed < a.2) :
    m.foldl oldestScan a = a := by
  induction m generalizing a with
  | nil => rfl
  | cons kv rest ih =>
      have hkv : ¬ kv.2.lastAccessed < a.2 := h kv (List.mem_cons_self _ _)
      rw [List.foldl_cons]
      rw [show oldestScan a kv = a from if_neg hkv]
      exact ih a fun kv' hkv' => h kv' (List.mem_cons_of_mem _ hkv')

/-- When some entry beats the accumulator, the eviction scan returns an
entry of the list holding the minimum lastAccessed. -/
theorem foldl_oldestScan_found (m : Cache) (a : String × Nat)
    (h : ∃ kv ∈ m, kv.2.lastAccessed < a.2) :
    ∃ kv ∈ m, m.foldl oldestScan a = (kv.1, kv.2.lastAccessed)
      ∧ (∀ kv' ∈ m, kv.2.lastAccessed ≤ kv'.2.lastAccessed)
      ∧ kv.2.lastAccessed < a.2 := by
  induction m generalizing a with
  | nil => exact absurd h (by simp)
  | cons kv rest ih =>
      rw [List.foldl_cons]
      by_cases hkv : kv.2.lastAccessed < a.2
      · rw [show oldestScan a kv = (kv.1, kv.2.lastAccessed) from if_pos hkv]
        by_cases hrest : ∃ kv' ∈ rest, kv'.2.lastAccessed < kv.2.lastAccessed
        · obtain ⟨kv'', hkv''m, heq, hmin, hlt⟩ := ih (kv.1, kv.2.lastAccessed) hrest
          refine ⟨kv'', List.mem_cons_of_mem _ hkv''m, heq, ?_, lt_trans hlt hkv⟩
          intro kv' hkv'
          rcases List.mem_cons.mp hkv' with h1 | h1
          · exact h1 ▸ le_of_lt hlt
          · exact hmin kv' h1
        · push_neg at hrest
          rw [foldl_oldestScan_no_update rest (kv.1, kv.2.lastAccessed)
            (fun kv' hkv' => not_lt.mpr (hrest kv' hkv'))]
          refine ⟨kv, List.mem_cons_self _ _, rfl, ?_, hkv⟩
          intro kv' hkv'
          rcases List.mem_cons.mp hkv' with h1 | h1
          · exact h1 ▸ le_refl _
          · exact hrest kv' h1
      · rw [show oldestScan a kv = a from if_neg hkv]
        have hrest : ∃ kv' ∈ rest, kv'.2.lastAccessed < a.2 := by
          obtain ⟨kv', hkv'm, hlt⟩ := h
          rcases List.mem_cons.mp hkv'm with h1 | h1
          · exact absurd (h1 ▸ hlt) hkv
          · exact ⟨kv', h1, hlt⟩
        obtain ⟨kv'', hkv''m, heq, hmin, hlt⟩ := ih a hrest
        refine ⟨kv'', List.mem_cons_of_mem _ hkv''m, heq, ?_, hlt⟩
        intro kv' hkv'
        rcases List.mem_cons.mp hkv' with h1 | h1
        · exact h1 ▸ le_of_lt (lt_of_lt_of_le hlt (not_lt.mp hkv))
        · exact hmin kv' h1

/-- On a non-empty table whose stamps are real clock values (below
Number.MAX_SAFE_INTEGER), the eviction scan returns an entry of the
table holding the minimum lastAccessed. -/
theorem findOldest_found (m : Cache) (hne : m ≠ [])
    (hts : ∀ kv ∈ m, kv.2.lastAccessed < maxSafeInteger) :
    ∃ kv ∈ m, findOldest m = (kv.1, kv.2.lastAccessed)
      ∧ ∀ kv' ∈ m, kv.2.lastAccessed ≤ kv'.2.lastAccessed := by
  obtain ⟨kv0, hkv0⟩ := List.exists_mem_of_ne_nil m hne
  obtain ⟨kv, hm, heq, hmin, _⟩ :=
    foldl_oldestScan_found m ("", maxSafeInteger) ⟨kv0, hkv0, hts kv0 hkv0⟩
  exact ⟨kv, hm, heq, hmin⟩

/-- Destroy calls contribute no deleted key. -/
theorem evictedKeys_destroyEffs (m : Cache) (k : String) :
    evictedKeys
      (match m.find? (fun kv => kv.1 = k) with
        | some kv =>
            if kv.2.props.hasManager then
              [EvictEffect.destroyCall k kv.2.props.managerDestroyThrows]
            else []
        | none => []) = [] := by
  cases hfind : m.find? (fun kv => kv.1 = k) with
  | none => rfl
  | some kv =>
      by_cases h : kv.2.props.hasManager <;> simp [evictedKeys, h]

/-- The eviction loop implements a legal eviction run whenever the keys
are non-empty strings and the stamps are real clock values. -/
theorem evictLoopGo_steps (fuel : Nat) :
    ∀ (m : Cache) (maxCacheSize : Nat), m.length ≤ fuel →
    (∀ kv ∈ m, kv.1 ≠ "") →
    (∀ kv ∈ m, kv.2.lastAccessed < maxSafeInteger) →
    EvictSteps maxCacheSize m
      (evictedKeys (evictLoopGo fuel m maxCacheSize).2)
      (evictLoopGo fuel m maxCacheSize).1 := by
  induction fuel with
  | zero =>
      intro m maxCacheSize hfuel _ _
      have : m = [] := List.length_eq_zero.mp (Nat.le_zero.mp hfuel)
      subst this
      exact EvictSteps.done [] (Nat.zero_le _)
  | succ fuel ih =>
      intro m maxCacheSize hfuel hkeys hts
      by_cases hlen : maxCacheSize < m.length
      · have hne : m ≠ [] := by
          intro hnil
          rw [hnil] at hlen
          exact Nat.not_lt_zero _ hlen
        obtain ⟨kv, hm, heq, hmin⟩ := findOldest_found m hne hts
        have hk : ¬ ((findOldest m).1 = "") := by
          rw [heq]
          exact hkeys kv hm
        have hstep :
            evictLoopGo (fuel + 1) m maxCacheSize
              = ((evictLoopGo fuel (m.filter (fun x => x.1 ≠ (findOldest m).1))
                    maxCacheSize).1,
                 (match m.find? (fun x => x.1 = (findOldest m).1) with
                   | some kv =>
                       if kv.2.props.hasManager then
                         [EvictEffect.destroyCall (findOldest m).1
                           kv.2.props.managerDestroyThrows]
                       else []
                   | none => [])
                  ++ (EvictEffect.removeEntry (findOldest m).1
                      :: (evictLoopGo fuel (m.filter (fun x => x.1 ≠ (findOldest m).1))
                            maxCacheSize).2)) := by
          rw [evictLoopGo, if_pos hlen, if_neg hk]
        have hfilt : (m.filter (fun x => x.1 ≠ (findOldest m).1)).length < m.length := by
          rw [List.length_filter_lt_length_iff_exists]
          exact ⟨kv, hm, by simp [heq]⟩
        have hrec := ih (m.filter (fun x => x.1 ≠ (findOldest m).1)) maxCacheSize
          (Nat.le_of_lt_succ (lt_of_lt_of_le hfilt hfuel))
          (fun x hx => hkeys x (List.mem_of_mem_filter hx))
          (fun x hx => hts x (List.mem_of_mem_filter hx))
        rw [hstep]
        simp only [evictedKeys, List.filterMap_append] at hrec ⊢
        rw [show ∀ l1 l2 : List String, l1 = [] → l1 ++ l2 = l2 from
          fun l1 l2 h => by rw [h, List.nil_append]]
        case _ =>
          refine EvictSteps.step m (findOldest m).1 kv.2 _ _ hlen ?_ hmin ?_
          · rw [heq]
            exact hm
          · simpa [evictedKeys] using hrec
        case _ =>
          exact evictedKeys_destroyEffs m (findOldest m).1
      · rw [show evictLoopGo (fuel + 1) m maxCacheSize = (m, []) from by
          rw [evictLoopGo, if_neg hlen]]
        exact EvictSteps.done m (Nat.le_of_not_lt hlen)

/-- Entries of the table produced by Map.set come from the new binding
or from the old table. -/
theorem mem_mapSet (m : Cache) (k : String) (v : TabCacheItem) (x : String × TabCacheItem)
    (hx : x ∈ mapSet m k v) : x = (k, v) ∨ x ∈ m := by
  rw [mapSet] at hx
  by_cases h : m.any (fun kv => kv.1 = k)
  · rw [if_pos h] at hx
    obtain ⟨kv, hkv, hfx⟩ := List.mem_map.mp hx
    by_cases hk : kv.1 = k
    · rw [if_pos hk] at hfx
      exact Or.inl hfx.symm
    · rw [if_neg hk] at hfx
      exact Or.inr (hfx ▸ hkv)
  · rw [if_neg h] at hx
    rcases List.mem_append.mp hx with h1 | h1
    · exact Or.inr h1
    · exact Or.inl (List.mem_singleton.mp h1)

/-- With duplicate-free keys, lookup of a present binding finds exactly
that binding. -/
theorem find?_eq_of_nodup (m : Cache) (k : String) (v : TabCacheItem)
    (hnodup : (m.map Prod.fst).Nodup) (hmem : (k, v) ∈ m) :
    m.find? (fun kv => kv.1 = k) = some (k, v) := by
  induction m with
  | nil => cases hmem
  | cons kv rest ih =>
      rw [List.map_cons, List.nodup_cons] at hnodup
      by_cases hk : kv.1 = k
      · rw [List.find?_cons_of_pos _ (by simp [hk])]
        rcases List.mem_cons.mp hmem with h1 | h1
        · rw [h1]
        · exact absurd (hk ▸ List.mem_map_of_mem Prod.fst h1) hnodup.1
      · rw [List.find?_cons_of_neg _ (by simp [hk])]
        rcases List.mem_cons.mp hmem with h1 | h1
        · exact absurd (congrArg Prod.fst h1).symm hk
        · exact ih hnodup.2 h1

/-- C3 (amended).  For the LRU cache of useTabCache, provided every key
is a non-empty string and every clock value is below
Number.MAX_SAFE_INTEGER (otherwise the eviction scan yields the falsy
oldestKey '' and the loop breaks early, see the counterexample):
addToCache stamps and stores the entry, then performs a legal eviction
run — entries are evicted only while the table is over capacity, each
evicted entry holds the minimum lastAccessed among the entries present
at the moment of its eviction, its manager is destroyed before the
delete with errors swallowed (the removal happens whatever the destroy
flag says, since the run is proved for every value of the
managerDestroyThrows flags), and afterwards the size is at most
maxCacheSize.  getFromCache on a present key returns the stored
renderProps unchanged and only bumps that entry's lastAccessed to the
current time, keeping order and every other entry intact — it is the
sole operation that refreshes recency of a retained entry, addToCache
always replacing the whole entry.  Finally the concrete capacity-3
scenario: inserting t1, t2, t3 at times 1, 2, 3, reading t1 at time 4,
then inserting t4 at time 5 evicts exactly t2 — destroying its manager
first, even though that destroy throws — leaving t1, t3, t4. -/
theorem lru_cache_invariants :
    (∀ (m : Cache) (maxCacheSize now : Nat) (tabId : String) (props : RenderProps),
      1 ≤ maxCacheSize → tabId ≠ "" → now < maxSafeInteger →
      (∀ kv ∈ m, kv.1 ≠ "") → (∀ kv ∈ m, kv.2.lastAccessed < maxSafeInteger) →
      EvictSteps maxCacheSize (mapSet m tabId ⟨now, props⟩)
        (evictedKeys (addToCache m maxCacheSize now tabId props).2)
        (addToCache m maxCacheSize now tabId props).1
      ∧ (addToCache m maxCacheSize now tabId props).1.length ≤ maxCacheSize) ∧
    (∀ (m : Cache) (now : Nat) (tabId : String) (it : TabCacheItem),
      (m.map Prod.fst).Nodup → (tabId, it) ∈ m →
      (getFromCache m now tabId).2 = some it.props ∧
      (getFromCache m now tabId).1
        = m.map (fun kv => if kv.1 = tabId then (tabId, ⟨now, kv.2.props⟩) else kv)) ∧
    ((addToCache
        (getFromCache
          (addToCache
            (addToCache
              (addToCache [] 3 1 "t1" ⟨1, true, false⟩).1
              3 2 "t2" ⟨2, true, true⟩).1
            3 3 "t3" ⟨3, true, false⟩).1
          4 "t1").1
        3 5 "t4" ⟨4, true, false⟩).1.map Prod.fst = ["t1", "t3", "t4"] ∧
      (addToCache
        (getFromCache
          (addToCache
            (addToCache
              (addToCache [] 3 1 "t1" ⟨1, true, false⟩).1
              3 2 "t2" ⟨2, true, true⟩).1
            3 3 "t3" ⟨3, true, false⟩).1
          4 "t1").1
        3 5 "t4" ⟨4, true, false⟩).2
        = [EvictEffect.destroyCall "t2" true, EvictEffect.removeEntry "t2"]) := by
  refine ⟨?_, ?_, by decide, by decide⟩
  · intro m maxCacheSize now tabId props _ htab hnow hkeys hts
    have hkeys' : ∀ kv ∈ mapSet m tabId ⟨now, props⟩, kv.1 ≠ "" := by
      intro kv hkv
      rcases mem_mapSet m tabId ⟨now, props⟩ kv hkv with h1 | h1
      · rw [h1]
        exact htab
      · exact hkeys kv h1
    have hts' : ∀ kv ∈ mapSet m tabId ⟨now, props⟩,
        kv.2.lastAccessed < maxSafeInteger := by
      intro kv hkv
      rcases mem_mapSet m tabId ⟨now, props⟩ kv hkv with h1 | h1
      · rw [h1]
        exact hnow
      · exact hts kv h1
    have hsteps := evictLoopGo_steps (mapSet m tabId ⟨now, props⟩).length
      (mapSet m tabId ⟨now, props⟩) maxCacheSize (le_refl _) hkeys' hts'
    exact ⟨hsteps, hsteps.length_le⟩
  · intro m now tabId it hnodup hmem
    have hfind := find?_eq_of_nodup m tabId it hnodup hmem
    simp only [getFromCache, hfind]
    exact ⟨trivial, trivial⟩

/-- Witness for C3's amended theorem: a capacity-1 insertion into the
empty cache satisfies the hypotheses and stays within capacity. -/
theorem lru_cache_invariants_witness :
    (1 ≤ 1) ∧ ("b" ≠ "") ∧ (2 < maxSafeInteger) ∧
    (addToCache [] 1 2 "b" ⟨0, false, false⟩).1.length ≤ 1 :=
  ⟨by decide, by decide, by decide,
    (lru_cache_invariants.1 [] 1 2 "b" ⟨0, false, false⟩
      (by decide) (by decide) (by decide) (by decide) (by decide)).2⟩

/-- C3 (counterexample).  The claim as stated fails on the empty-string
key: with capacity 1, inserting the key '' and then the key 'x' leaves
two entries in the cache, because the eviction scan returns oldestKey ''
for the minimal entry, the falsy check `if (oldestKey)` treats it as
"no candidate", and the while loop breaks with the table still over
capacity. -/
theorem lru_empty_key_counterexample :
    ¬ ((addToCache (addToCache [] 1 1 "" ⟨0, false, false⟩).1
          1 2 "x" ⟨1, false, false⟩).1.length ≤ 1) := by
  decide

end TabCache

end OnlyOffice
